import Mathlib

/-!
# Verification of the PSO time-attack records page

A shallow embedding, in Lean 4, of the join / filter / group / sort / render
pipeline of the records page (`js/app.js` and its multi-filter variant).
JavaScript strings are modelled by `String`, numbers occurring as ids, ranks
and times by `Int`, a possibly non-finite number by `Option Int`, the
`Map` lookups by functions `Int → Option _`, and `Set` objects by lists with
membership.  `Array.prototype.sort` (a stable sort driven by a user
comparator) is modelled by `List.insertionSort`, which is stable, run on the
same comparator; `localeCompare` is modelled as lexicographic comparison of
the code points.  All definitions are executable.
-/

namespace PsoTa

/-! ## Ordering utilities

`cmpv` is the three-way comparison returned by a JavaScript comparator
`(a, b) => a - b` (encoded as an `Ordering` instead of a signed number);
`cmpStr` is the model of `localeCompare`: lexicographic comparison of code
points.  The lemmas below are the algebra needed to reason about chained
comparators. -/

def cmpv {α : Type} [LinearOrder α] (a b : α) : Ordering :=
  if a < b then .lt else if a = b then .eq else .gt

theorem cmpv_self {α : Type} [LinearOrder α] (a : α) : cmpv a a = .eq := by
  simp [cmpv]

theorem cmpv_eq_iff {α : Type} [LinearOrder α] {a b : α} : cmpv a b = .eq ↔ a = b := by
  unfold cmpv
  rcases lt_trichotomy a b with h | h | h
  · rw [if_pos h]
    constructor
    · intro hc
      cases hc
    · intro hc
      exact absurd (hc ▸ h) (lt_irrefl b)
  · simp [h]
  · rw [if_neg (asymm h), if_neg (ne_of_gt h)]
    constructor
    · intro hc
      cases hc
    · intro hc
      exact absurd (hc ▸ h) (lt_irrefl b)

theorem cmpv_lt_iff {α : Type} [LinearOrder α] {a b : α} : cmpv a b = .lt ↔ a < b := by
  unfold cmpv
  rcases lt_trichotomy a b with h | h | h
  · simp [h]
  · simp [h, lt_irrefl]
  · rw [if_neg (asymm h), if_neg (ne_of_gt h)]
    constructor
    · intro hc
      cases hc
    · intro hc
      exact absurd hc (asymm h)

theorem cmpv_gt_iff {α : Type} [LinearOrder α] {a b : α} : cmpv a b = .gt ↔ b < a := by
  unfold cmpv
  rcases lt_trichotomy a b with h | h | h
  · rw [if_pos h]
    constructor
    · intro hc
      cases hc
    · intro hc
      exact absurd hc (asymm h)
  · simp [h, lt_irrefl]
  · rw [if_neg (asymm h), if_neg (ne_of_gt h)]
    constructor
    · intro _
      exact h
    · intro _
      rfl

theorem cmpv_swap {α : Type} [LinearOrder α] (a b : α) : cmpv b a = (cmpv a b).swap := by
  rcases lt_trichotomy a b with h | h | h
  · rw [cmpv_lt_iff.mpr h, cmpv_gt_iff.mpr h]
    rfl
  · rw [h, cmpv_self]
    rfl
  · rw [cmpv_gt_iff.mpr h, cmpv_lt_iff.mpr h]
    rfl

theorem cmpv_ne_gt_iff {α : Type} [LinearOrder α] {a b : α} : cmpv a b ≠ .gt ↔ a ≤ b := by
  rw [not_iff_comm, not_le, cmpv_gt_iff]

theorem cmpv_lt_trans {α : Type} [LinearOrder α] {a b c : α}
    (h₁ : cmpv a b = .lt) (h₂ : cmpv b c = .lt) : cmpv a c = .lt :=
  cmpv_lt_iff.mpr (lt_trans (cmpv_lt_iff.mp h₁) (cmpv_lt_iff.mp h₂))

theorem char_toNat_inj {a b : Char} (h : a.toNat = b.toNat) : a = b :=
  Char.eq_of_val_eq (UInt32.eq_of_toBitVec_eq (BitVec.eq_of_toNat_eq h))

def cmpChar (a b : Char) : Ordering := cmpv a.toNat b.toNat

theorem cmpChar_self (a : Char) : cmpChar a a = .eq := cmpv_self _

theorem cmpChar_eq_iff {a b : Char} : cmpChar a b = .eq ↔ a = b := by
  unfold cmpChar
  rw [cmpv_eq_iff]
  constructor
  · exact char_toNat_inj
  · intro h
    rw [h]

theorem cmpChar_swap (a b : Char) : cmpChar b a = (cmpChar a b).swap := cmpv_swap _ _

theorem cmpChar_lt_trans {a b c : Char} (h₁ : cmpChar a b = .lt) (h₂ : cmpChar b c = .lt) :
    cmpChar a c = .lt := cmpv_lt_trans h₁ h₂

theorem then_of_ne_eq {o p : Ordering} (h : o ≠ .eq) : o.then p = o := by
  cases o <;> simp_all [Ordering.then]

theorem eq_then (p : Ordering) : (Ordering.eq).then p = p := rfl

theorem then_ne_gt_left {o p : Ordering} (h : o.then p ≠ .gt) : o ≠ .gt := by
  cases o <;> simp_all [Ordering.then]

theorem then_swap (o p : Ordering) : (o.then p).swap = o.swap.then p.swap := by
  cases o <;> rfl

theorem then_eq_lt_iff {o p : Ordering} : o.then p = .lt ↔ o = .lt ∨ (o = .eq ∧ p = .lt) := by
  cases o <;> simp [Ordering.then]

theorem then_eq_eq_iff {o p : Ordering} : o.then p = .eq ↔ o = .eq ∧ p = .eq := by
  cases o <;> simp [Ordering.then]

theorem ordering_ne_gt_iff {o : Ordering} : o ≠ .gt ↔ o = .lt ∨ o = .eq := by
  cases o <;> simp

theorem ordering_eq_of_both_ne_gt {o : Ordering} (h₁ : o ≠ .gt) (h₂ : o.swap ≠ .gt) :
    o = .eq := by
  cases o <;> simp_all [Ordering.swap]

def cmpList : List Char → List Char → Ordering
  | [], [] => .eq
  | [], _ :: _ => .lt
  | _ :: _, [] => .gt
  | a :: as, b :: bs => (cmpChar a b).then (cmpList as bs)

theorem cmpList_self (l : List Char) : cmpList l l = .eq := by
  induction l with
  | nil => rfl
  | cons a as ih => simp [cmpList, cmpChar_self, eq_then, ih]

theorem cmpList_eq_iff {l₁ l₂ : List Char} : cmpList l₁ l₂ = .eq ↔ l₁ = l₂ := by
  constructor
  · intro h
    induction l₁ generalizing l₂ with
    | nil => cases l₂ with
      | nil => rfl
      | cons b bs => simp [cmpList] at h
    | cons a as ih =>
      cases l₂ with
      | nil => simp [cmpList] at h
      | cons b bs =>
        rw [cmpList, then_eq_eq_iff] at h
        rw [cmpChar_eq_iff.mp h.1, ih h.2]
  · intro h
    rw [h, cmpList_self]

theorem cmpList_swap (l₁ l₂ : List Char) : cmpList l₂ l₁ = (cmpList l₁ l₂).swap := by
  induction l₁ generalizing l₂ with
  | nil => cases l₂ <;> rfl
  | cons a as ih =>
    cases l₂ with
    | nil => rfl
    | cons b bs => rw [cmpList, cmpList, cmpChar_swap, ih, then_swap]

theorem cmpList_lt_trans {l₁ l₂ l₃ : List Char}
    (h₁ : cmpList l₁ l₂ = .lt) (h₂ : cmpList l₂ l₃ = .lt) : cmpList l₁ l₃ = .lt := by
  induction l₁ generalizing l₂ l₃ with
  | nil =>
    cases l₂ with
    | nil => exact h₂
    | cons b bs =>
      cases l₃ with
      | nil => simp [cmpList] at h₂
      | cons c cs => rfl
  | cons a as ih =>
    cases l₂ with
    | nil => simp [cmpList] at h₁
    | cons b bs =>
      cases l₃ with
      | nil => simp [cmpList] at h₂
      | cons c cs =>
        rw [cmpList, then_eq_lt_iff] at h₁ h₂ ⊢
        rcases h₁ with h₁ | ⟨h₁e, h₁t⟩
        · rcases h₂ with h₂ | ⟨h₂e, h₂t⟩
          · exact Or.inl (cmpChar_lt_trans h₁ h₂)
          · exact Or.inl (cmpChar_eq_iff.mp h₂e ▸ h₁)
        · rcases h₂ with h₂ | ⟨h₂e, h₂t⟩
          · exact Or.inl ((cmpChar_eq_iff.mp h₁e).symm ▸ h₂)
          · exact Or.inr ⟨(cmpChar_eq_iff.mp h₁e).symm ▸ h₂e, ih h₁t h₂t⟩

/-- The model of `localeCompare`: lexicographic comparison of code points. -/
def cmpStr (a b : String) : Ordering := cmpList a.data b.data

theorem cmpStr_self (s : String) : cmpStr s s = .eq := cmpList_self _

theorem cmpStr_eq_iff {a b : String} : cmpStr a b = .eq ↔ a = b := by
  unfold cmpStr
  rw [cmpList_eq_iff]
  constructor
  · intro h
    cases a
    cases b
    exact congrArg String.mk h
  · intro h
    rw [h]

theorem cmpStr_swap (a b : String) : cmpStr b a = (cmpStr a b).swap := cmpList_swap _ _

theorem cmpStr_lt_trans {a b c : String} (h₁ : cmpStr a b = .lt) (h₂ : cmpStr b c = .lt) :
    cmpStr a c = .lt := cmpList_lt_trans h₁ h₂

/-- The three properties of a three-way comparator that make chained (`then`)
comparators behave like a lexicographic total preorder. -/
structure CmpProps {α : Type} (c : α → α → Ordering) : Prop where
  swap_eq : ∀ a b, c b a = (c a b).swap
  lt_trans : ∀ a b d, c a b = .lt → c b d = .lt → c a d = .lt
  eq_left : ∀ a b d, c a b = .eq → c a d = c b d

theorem CmpProps.eq_right {α : Type} {c : α → α → Ordering} (h : CmpProps c)
    {a b : α} (d : α) (he : c a b = .eq) : c d a = c d b := by
  rw [h.swap_eq a d, h.swap_eq b d, h.eq_left a b d he]

theorem CmpProps.comap {α β : Type} {c : α → α → Ordering} (h : CmpProps c) (f : β → α) :
    CmpProps (fun x y => c (f x) (f y)) where
  swap_eq := fun a b => h.swap_eq (f a) (f b)
  lt_trans := fun a b d => h.lt_trans (f a) (f b) (f d)
  eq_left := fun a b d => h.eq_left (f a) (f b) (f d)

theorem CmpProps.lex {α : Type} {c₁ c₂ : α → α → Ordering}
    (h₁ : CmpProps c₁) (h₂ : CmpProps c₂) :
    CmpProps (fun a b => (c₁ a b).then (c₂ a b)) where
  swap_eq := fun a b => by rw [h₁.swap_eq, h₂.swap_eq, then_swap]
  lt_trans := by
    intro a b d hab hbd
    rw [then_eq_lt_iff] at hab hbd ⊢
    rcases hab with hab | ⟨habe, habt⟩
    · rcases hbd with hbd | ⟨hbde, hbdt⟩
      · exact Or.inl (h₁.lt_trans _ _ _ hab hbd)
      · exact Or.inl ((h₁.eq_right a hbde) ▸ hab)
    · rcases hbd with hbd | ⟨hbde, hbdt⟩
      · exact Or.inl ((h₁.eq_left a b d habe).trans hbd)
      · exact Or.inr ⟨(h₁.eq_left a b d habe).trans hbde, h₂.lt_trans _ _ _ habt hbdt⟩
  eq_left := by
    intro a b d he
    rw [then_eq_eq_iff] at he
    exact congrArg₂ Ordering.then (h₁.eq_left a b d he.1) (h₂.eq_left a b d he.2)

theorem cmpProps_cmpv {α : Type} [LinearOrder α] : CmpProps (cmpv (α := α)) where
  swap_eq := cmpv_swap
  lt_trans := fun _ _ _ => cmpv_lt_trans
  eq_left := fun a b d he => by rw [cmpv_eq_iff.mp he]

theorem cmpProps_cmpStr : CmpProps cmpStr where
  swap_eq := cmpStr_swap
  lt_trans := fun _ _ _ => cmpStr_lt_trans
  eq_left := fun a b d he => by rw [cmpStr_eq_iff.mp he]

theorem CmpProps.ne_gt_trans {α : Type} {c : α → α → Ordering} (h : CmpProps c)
    {a b d : α} (h₁ : c a b ≠ .gt) (h₂ : c b d ≠ .gt) : c a d ≠ .gt := by
  rw [ordering_ne_gt_iff] at h₁ h₂ ⊢
  rcases h₁ with h₁ | h₁
  · rcases h₂ with h₂ | h₂
    · exact Or.inl (h.lt_trans _ _ _ h₁ h₂)
    · exact Or.inl ((h.eq_right a h₂) ▸ h₁)
  · rcases h₂ with h₂ | h₂
    · exact Or.inl ((h.eq_left a b d h₁).trans h₂)
    · exact Or.inr ((h.eq_left a b d h₁).trans h₂)

theorem CmpProps.total_ne_gt {α : Type} {c : α → α → Ordering} (h : CmpProps c)
    (a b : α) : c a b ≠ .gt ∨ c b a ≠ .gt := by
  rcases ho : c a b with _ | _ | _
  · exact Or.inl (by simp [ho])
  · exact Or.inl (by simp [ho])
  · refine Or.inr ?_
    rw [h.swap_eq, ho]
    simp [Ordering.swap]

/-! ## Data model

The four entity shapes loaded from the JSON resources (`records.json`,
`quests.json`, `player_records.json`, `players.json`). -/

structure Quest where
  id : Int
  name : String
deriving DecidableEq, Repr

structure Player where
  id : Int
  name : String
deriving DecidableEq, Repr

structure Record where
  id : Int
  quest_id : Int
  meta : String
  category : String
  pb : Bool
  time : Int
  rank : Int
deriving DecidableEq, Repr

structure PlayerRecord where
  id : Int
  record_id : Int
  player_id : Int
  pso_class : String
  pov : String
deriving DecidableEq, Repr

/-- `buildIdMap`: builds a `Map` from id to entity; a later duplicate id
overwrites an earlier one (`Map.set` semantics). -/
def buildIdMap {α : Type} (getId : α → Int) (items : List α) : Int → Option α :=
  fun i => items.foldl (fun acc it => if getId it = i then some it else acc) none

/-! ## Small string helpers of the source -/

/-- `esc` applied to one character: the five HTML-significant characters map
to their entities, every other character stands unchanged. -/
def escChar (c : Char) : List Char :=
  if c = '&' then "&amp;".data
  else if c = '<' then "&lt;".data
  else if c = '>' then "&gt;".data
  else if c = '"' then "&quot;".data
  else if c = '\'' then "&#39;".data
  else [c]

/-- `String.prototype.replaceAll` with a one-character pattern. -/
def repChar (c : Char) (rep : String) (s : String) : String :=
  String.mk (s.data.flatMap (fun d => if d = c then rep.data else [d]))

/-- `esc(v)`: the five `replaceAll` calls of the source, `&` first. -/
def esc (v : String) : String :=
  repChar '\'' "&#39;"
    (repChar '"' "&quot;"
      (repChar '>' "&gt;"
        (repChar '<' "&lt;"
          (repChar '&' "&amp;" v))))

/-- `normalize(s)`: trim surrounding whitespace, lowercase.  `String.trim`
and `toLowerCase` are modelled on the character list. -/
def normalize (s : String) : String :=
  String.mk
    (((s.data.dropWhile Char.isWhitespace).reverse.dropWhile Char.isWhitespace).reverse.map
      Char.toLower)

/-- `String(s).padStart(2, "0")`. -/
def pad2 (s : String) : String :=
  if 2 ≤ s.length then s else if s.length = 1 then "0" ++ s else "00"

/-- `formatTime(seconds)`.  `none` stands for a non-finite number (`NaN`,
`±Infinity`), for which `Number.isFinite` is false; a finite input is an
integer count of seconds. -/
def formatTime : Option Int → String
  | none => ""
  | some n =>
    let abs := n.natAbs
    let m := abs / 60
    let s := abs % 60
    let ss := pad2 (toString s)
    if n < 0 then toString m ++ "'" ++ ss ++ " Remaining"
    else toString m ++ "'" ++ ss

/-- `groupKey(record, questName)`: the four fields joined with `"||"`.
`questName` is `undefined` (here `none`) when the quest lookup failed. -/
def groupKey (record : Record) (questName : Option String) : String :=
  String.intercalate "||"
    [questName.getD "(unknown quest)", record.meta, record.category,
      if record.pb then "PB" else "NoPB"]

/-- `groupLabel(record, questName)`. -/
def groupLabel (record : Record) (questName : Option String) : String :=
  (questName.getD "(unknown quest)") ++ " — " ++ record.category ++ " — " ++
    record.meta ++ " — " ++ (if record.pb then "PB" else "No-PB")

/-! ## The join (`renderGroupedTable`, first half)

One joined row per `(record, player_record)` pair, or a placeholder row when
a record has no participants. -/

structure JoinedRow where
  record : Record
  questName : Option String
  pr : Option PlayerRecord
  playerName : String
  cls : String
  pov : String
deriving DecidableEq, Repr

/-- The participant order used by the source:
`.sort((a, b) => a.id - b.id)`. -/
def prLE (a b : PlayerRecord) : Prop := a.id ≤ b.id

instance : DecidableRel prLE := fun a b => inferInstanceAs (Decidable (a.id ≤ b.id))

instance : IsTotal PlayerRecord prLE := ⟨fun a b => Int.le_total a.id b.id⟩

instance : IsTrans PlayerRecord prLE := ⟨fun _ _ _ h₁ h₂ => le_trans h₁ h₂⟩

/-- The participants of a record:
`playerRecords.filter((pr) => pr.record_id === record.id).sort((a, b) => a.id - b.id)`
(the stable sort is modelled by `insertionSort`). -/
def prsFor (playerRecords : List PlayerRecord) (record : Record) : List PlayerRecord :=
  List.insertionSort prLE (playerRecords.filter (fun pr => pr.record_id == record.id))

/-- The joined row pushed for one participant. -/
def joinedRowOfPR (playerById : Int → Option Player) (record : Record)
    (questName : Option String) (pr : PlayerRecord) : JoinedRow where
  record := record
  questName := questName
  pr := some pr
  playerName :=
    match playerById pr.player_id with
    | some p => p.name
    | none => "(unknown player " ++ toString pr.player_id ++ ")"
  cls := pr.pso_class
  pov := pr.pov

/-- The placeholder row pushed when a record has no participants. -/
def placeholderRow (record : Record) (questName : Option String) : JoinedRow where
  record := record
  questName := questName
  pr := none
  playerName := "(none found)"
  cls := ""
  pov := ""

/-- The joined rows contributed by one record. -/
def rowsForRecord (questById : Int → Option Quest) (playerById : Int → Option Player)
    (playerRecords : List PlayerRecord) (record : Record) : List JoinedRow :=
  let questName := (questById record.quest_id).map Quest.name
  let prs := prsFor playerRecords record
  if prs.isEmpty then [placeholderRow record questName]
  else prs.map (joinedRowOfPR playerById record questName)

/-- The join loop of `renderGroupedTable`: all joined rows, in record order. -/
def joinRows (questById : Int → Option Quest) (playerById : Int → Option Player)
    (playerRecords : List PlayerRecord) (records : List Record) : List JoinedRow :=
  records.flatMap (rowsForRecord questById playerById playerRecords)

/-! ## The sort (`joinedRows.sort(...)`) -/

/-- `a.pr?.id ?? 0`. -/
def prId (row : JoinedRow) : Int :=
  match row.pr with
  | none => 0
  | some pr => pr.id

/-- The comparator passed to `joinedRows.sort`, translated branch for
branch; a numeric difference stands for its sign, `localeCompare` for
`cmpStr`. -/
def cmpRows (a b : JoinedRow) : Ordering :=
  let ka := groupKey a.record a.questName
  let kb := groupKey b.record b.questName
  if ka ≠ kb then cmpStr ka kb
  else if a.record.id ≠ b.record.id then
    if a.record.rank ≠ b.record.rank then cmpv a.record.rank b.record.rank
    else if a.record.time ≠ b.record.time then cmpv a.record.time b.record.time
    else cmpv a.record.id b.record.id
  else if prId a ≠ prId b then cmpv (prId a) (prId b)
  else cmpStr a.playerName b.playerName

/-- "Goes before or ties": the comparator returned a non-positive value. -/
def leRows (a b : JoinedRow) : Prop := cmpRows a b ≠ Ordering.gt

instance : DecidableRel leRows := fun a b => inferInstanceAs (Decidable (cmpRows a b ≠ .gt))

/-- The sort of the joined rows (stable, as `Array.prototype.sort` is). -/
def sortRows (rows : List JoinedRow) : List JoinedRow :=
  List.insertionSort leRows rows

/-- Modelled from the spec: the claimed total order on joined rows, a plain
lexicographic comparison of the key (group key, rank, time, record id,
participant id, participant name). -/
def specRowCompare (a b : JoinedRow) : Ordering :=
  (cmpStr (groupKey a.record a.questName) (groupKey b.record b.questName)).then
    ((cmpv a.record.rank b.record.rank).then
      ((cmpv a.record.time b.record.time).then
        ((cmpv a.record.id b.record.id).then
          ((cmpv (prId a) (prId b)).then
            (cmpStr a.playerName b.playerName)))))

/-- Modelled from the spec: non-positive `specRowCompare`. -/
def leSpec (a b : JoinedRow) : Prop := specRowCompare a b ≠ Ordering.gt

instance : DecidableRel leSpec := fun a b => inferInstanceAs (Decidable (specRowCompare a b ≠ .gt))

/-- Two joined rows are coherent when sharing a record id forces them to
carry the same record and resolved quest name — true of any rows produced
by the join from records with unique ids (the documented data invariant). -/
def RecordCoherent (a b : JoinedRow) : Prop :=
  a.record.id = b.record.id → a.record = b.record ∧ a.questName = b.questName

instance : ∀ a b : JoinedRow, Decidable (RecordCoherent a b) := fun _ _ =>
  inferInstanceAs (Decidable (_ → _))

/-! ## The render loop (`renderGroupedTable`, second half)

The body of the table is modelled as a list of structured items; the HTML
text of each item is produced by `htmlOfItem` below, so the final string is
a function of this list. -/

inductive RItem where
  | groupMarker (label : String)
  | divider
  | dataRow (quest meta category pb time rank player cls pov : String)
deriving DecidableEq, Repr

def headers : List String :=
  ["Quest", "Meta", "Category", "PB", "Time", "Rank", "Player", "Class", "POV"]

/-- Lowercasing alone (no trimming), for the case-insensitive regex test. -/
def lowerStr (s : String) : String := String.mk (s.data.map Char.toLower)

/-- The POV cell: a link when the value matches `/^https?:\/\//i`, plain
escaped text otherwise (`row.pov &&` makes the empty string fall through). -/
def povHTML (pov : String) : String :=
  if pov ≠ "" ∧ ((lowerStr pov).startsWith "http://" ∨ (lowerStr pov).startsWith "https://") then
    "<a href=\"" ++ esc pov ++ "\" target=\"_blank\" rel=\"noopener noreferrer\">" ++
      esc pov ++ "</a>"
  else esc pov

/-- The `dataRow` object built for one joined row: record-level columns are
filled only on the first row of a record, later rows get `""`. -/
def dataRowOf (row : JoinedRow) (isFirst : Bool) : RItem :=
  RItem.dataRow
    (if isFirst then row.questName.getD "(unknown quest)" else "")
    (if isFirst then row.record.meta else "")
    (if isFirst then row.record.category else "")
    (if isFirst then (if row.record.pb then "PB" else "No-PB") else "")
    (if isFirst then formatTime (some row.record.time) else "")
    (if isFirst then toString row.record.rank else "")
    row.playerName
    row.cls
    (povHTML row.pov)

/-- The group-label and group-divider rows pushed when the group changes. -/
def groupMarkers (row : JoinedRow) : List RItem :=
  [RItem.groupMarker (groupLabel row.record row.questName), RItem.divider]

/-- The render loop over the sorted joined rows, with its two trackers
`lastGroup` and `lastRecordIdWithinGroup` threaded explicitly. -/
def renderBody (lastGroup : Option String) (lastRecordId : Option Int) :
    List JoinedRow → List RItem
  | [] => []
  | row :: rest =>
    let gk := groupKey row.record row.questName
    if some gk = lastGroup then
      dataRowOf row (decide (some row.record.id ≠ lastRecordId)) ::
        renderBody (some gk) (some row.record.id) rest
    else
      groupMarkers row ++
        dataRowOf row true :: renderBody (some gk) (some row.record.id) rest

/-- The HTML text of one body item, exactly as the source assembles it. -/
def htmlOfItem : RItem → String
  | .groupMarker label =>
    "<tr class=\"group-label\"><td colspan=\"" ++ toString headers.length ++ "\">" ++
      esc label ++ "</td></tr>"
  | .divider =>
    "<tr class=\"group-divider\"><td colspan=\"" ++ toString headers.length ++
      "\"><div class=\"bar\"></div></td></tr>"
  | .dataRow quest meta category pb time rank player cls pov =>
    "<tr>" ++ "<td>" ++ esc quest ++ "</td>" ++ "<td>" ++ esc meta ++ "</td>" ++
      "<td>" ++ esc category ++ "</td>" ++ "<td>" ++ esc pb ++ "</td>" ++
      "<td>" ++ esc time ++ "</td>" ++ "<td>" ++ esc rank ++ "</td>" ++
      "<td>" ++ esc player ++ "</td>" ++ "<td>" ++ esc cls ++ "</td>" ++
      "<td>" ++ pov ++ "</td>" ++ "</tr>"

/-- `limitN ? records.slice(0, limitN) : records` — `0` is falsy. -/
def selectRecords (records : List Record) (limitN : Option Nat) : List Record :=
  match limitN with
  | none => records
  | some n => if n = 0 then records else records.take n

/-- `renderGroupedTable(records, questById, playerRecords, playerById, limitN)`:
the full pipeline, returning the table's HTML. -/
def renderGroupedTable (records : List Record) (questById : Int → Option Quest)
    (playerRecords : List PlayerRecord) (playerById : Int → Option Player)
    (limitN : Option Nat) : String :=
  let selected := selectRecords records limitN
  let sorted := sortRows (joinRows questById playerById playerRecords selected)
  let thead :=
    "<thead><tr>" ++ String.join (headers.map (fun h => "<th>" ++ esc h ++ "</th>")) ++
      "</tr></thead>"
  let tbody :=
    "<tbody>" ++ String.join ((renderBody none none sorted).map htmlOfItem) ++ "</tbody>"
  "<table class=\"pivot\">" ++ thead ++ tbody ++ "</table>"

/-! ## The filter (`filterRecords`) -/

/-- `filterRecords(records, playerRecords, selectedPlayerIds, selectedClasses,
metaVal, countVal, pbVal)`.  The two `Set`s of the source are lists with
membership; `allowedByPlayers` / `allowedByClasses` is `none` exactly when
the corresponding selection is empty (the source leaves it `null`). -/
def filterRecords (records : List Record) (playerRecords : List PlayerRecord)
    (selectedPlayerIds selectedClasses : List String)
    (metaVal countVal pbVal : String) : List Record :=
  let allowedByPlayers : Option (List Int) :=
    if selectedPlayerIds.isEmpty then none
    else some
      ((playerRecords.filter
        (fun pr => selectedPlayerIds.contains (toString pr.player_id))).map
          PlayerRecord.record_id)
  let allowedByClasses : Option (List Int) :=
    if selectedClasses.isEmpty then none
    else some
      ((playerRecords.filter
        (fun pr => selectedClasses.contains (normalize pr.pso_class))).map
          PlayerRecord.record_id)
  records.filter (fun r =>
    (metaVal == "" || r.meta == metaVal) &&
    (countVal == "" || r.category == countVal) &&
    (pbVal == "" || (if r.pb then "1" else "0") == pbVal) &&
    (match allowedByPlayers with
      | none => true
      | some ids => ids.contains r.id) &&
    (match allowedByClasses with
      | none => true
      | some ids => ids.contains r.id))

/-! ## The typeahead suggestion builder (`buildSuggestionList`) -/

structure Item where
  key : String
  label : String
deriving DecidableEq, Repr

/-- `String.prototype.includes` on already-normalized strings. -/
def includesSubstr (s q : String) : Bool := decide (q.data <:+: s.data)

/-- The collection loop of `buildSuggestionList`: skip selected items, push
matches, stop once ten matches are collected. -/
def collectMatches (selectedSet : List String) (q : String) :
    List Item → List Item → List Item
  | [], acc => acc
  | it :: rest, acc =>
    if selectedSet.contains it.key then collectMatches selectedSet q rest acc
    else
      let acc' := if includesSubstr (normalize it.label) q then acc ++ [it] else acc
      if 10 ≤ acc'.length then acc' else collectMatches selectedSet q rest acc'

/-- `buildSuggestionList(query)`, as the list of matched items (the source
then maps them to `<div class="suggestion">` markup via `suggestionHTML`). -/
def buildSuggestionList (items : List Item) (selectedSet : List String)
    (query : String) : List Item :=
  let q := normalize query
  if q = "" then [] else collectMatches selectedSet q items []

/-- The markup the source returns: empty when no match, otherwise the joined
suggestion divs. -/
def suggestionHTML (items : List Item) (selectedSet : List String)
    (query : String) : String :=
  let ms := buildSuggestionList items selectedSet query
  if ms.isEmpty then ""
  else
    String.join (ms.map (fun it =>
      "<div class=\"suggestion\" data-key=\"" ++ esc it.key ++ "\">" ++
        esc it.label ++ "</div>"))

/-! ## Character-level form of `esc` -/

/-- `replaceAll` with a one-character pattern, on the character list. -/
def replaceAllChar (c : Char) (rep : List Char) (l : List Char) : List Char :=
  l.flatMap (fun d => if d = c then rep else [d])

/-- The five replacement passes of `esc`, on the character list. -/
def escChain (l : List Char) : List Char :=
  replaceAllChar '\'' "&#39;".data
    (replaceAllChar '"' "&quot;".data
      (replaceAllChar '>' "&gt;".data
        (replaceAllChar '<' "&lt;".data
          (replaceAllChar '&' "&amp;".data l))))

theorem esc_data (s : String) : (esc s).data = escChain s.data := rfl

theorem replaceAllChar_append (c : Char) (rep : List Char) (l₁ l₂ : List Char) :
    replaceAllChar c rep (l₁ ++ l₂) = replaceAllChar c rep l₁ ++ replaceAllChar c rep l₂ :=
  List.flatMap_append l₁ l₂ _

theorem escChain_append (l₁ l₂ : List Char) :
    escChain (l₁ ++ l₂) = escChain l₁ ++ escChain l₂ := by
  unfold escChain
  rw [replaceAllChar_append, replaceAllChar_append, replaceAllChar_append,
    replaceAllChar_append, replaceAllChar_append]

theorem escChain_singleton (d : Char) : escChain [d] = escChar d := by
  by_cases h1 : d = '&'
  · subst h1
    decide
  · by_cases h2 : d = '<'
    · subst h2
      decide
    · by_cases h3 : d = '>'
      · subst h3
        decide
      · by_cases h4 : d = '"'
        · subst h4
          decide
        · by_cases h5 : d = '\''
          · subst h5
            decide
          · simp [escChain, replaceAllChar, escChar, h1, h2, h3, h4, h5]

theorem escChain_eq_flatMap (l : List Char) : escChain l = l.flatMap escChar := by
  induction l with
  | nil => rfl
  | cons d ds ih =>
    have : d :: ds = [d] ++ ds := rfl
    rw [this, escChain_append, escChain_singleton, List.flatMap_append, ih]
    simp

/-! ## Claim theorems -/

/-- C7: `esc` replaces each of the five HTML-significant characters
`& < > " '` by its entity and keeps every other character, performing the
single-pass substitution `escChar` character for character (replacing `&`
first keeps the introduced entities intact); in particular
`O'Brien <3>` escapes to `O&#39;Brien &lt;3&gt;`. -/
theorem esc_escapes_html :
    (∀ s : String, (esc s).data = s.data.flatMap escChar) ∧
    esc "O'Brien <3>" = "O&#39;Brien &lt;3&gt;" := by
  constructor
  · intro s
    rw [esc_data, escChain_eq_flatMap]
  · decide

/-- C6: `formatTime` renders a finite signed number of seconds as
`minutes'seconds` with the seconds part zero-padded to two digits, appends
`" Remaining"` for a negative input (showing its magnitude), and renders a
non-finite input as `""`; in particular `formatTime 454 = "7'34"`,
`formatTime (-60) = "1'00 Remaining"` and `formatTime NaN = ""`. -/
theorem formatTime_spec :
    formatTime (some 454) = "7'34" ∧
    formatTime (some (-60)) = "1'00 Remaining" ∧
    formatTime none = "" ∧
    (∀ n : Int, formatTime (some n) =
      if n < 0 then
        toString (n.natAbs / 60) ++ "'" ++ pad2 (toString (n.natAbs % 60)) ++ " Remaining"
      else toString (n.natAbs / 60) ++ "'" ++ pad2 (toString (n.natAbs % 60))) ∧
    (∀ s : String, (pad2 s).length = max 2 s.length) := by
  refine ⟨by decide, by decide, rfl, fun n => rfl, fun s => ?_⟩
  unfold pad2
  by_cases h2 : 2 ≤ s.length
  · rw [if_pos h2]
    omega
  · rw [if_neg h2]
    by_cases h1 : s.length = 1
    · rw [if_pos h1, String.length_append, h1]
      decide
    · rw [if_neg h1]
      have h0 : s.length = 0 := by omega
      rw [h0]
      rfl

/-- C9: `groupKey` is not injective on the (quest name, meta, category, PB)
field tuple: joining with the unescaped delimiter `"||"` lets two records
with different meta/category values collide on the same key. -/
theorem groupKey_not_injective :
    groupKey
        { id := 1, quest_id := 1, meta := "a", category := "b||c",
          pb := true, time := 0, rank := 1 } (some "q") =
      groupKey
        { id := 2, quest_id := 1, meta := "a||b", category := "c",
          pb := true, time := 0, rank := 1 } (some "q") ∧
    ((some "q", "a", "b||c", true) : Option String × String × String × Bool) ≠
      (some "q", "a||b", "c", true) := by
  constructor
  · decide
  · decide

/-- C10: in `renderGroupedTable` the row limit is applied only when truthy:
`limitN = 0` renders exactly what `limitN = null` renders (all records),
while `limitN = n ≥ 1` renders exactly the first `n` records of the input
list. -/
theorem renderGroupedTable_limit :
    (∀ records questById playerRecords playerById,
      renderGroupedTable records questById playerRecords playerById (some 0) =
        renderGroupedTable records questById playerRecords playerById none) ∧
    (∀ records questById playerRecords playerById (n : Nat), 1 ≤ n →
      renderGroupedTable records questById playerRecords playerById (some n) =
        renderGroupedTable (records.take n) questById playerRecords playerById none) := by
  constructor
  · intro records questById playerRecords playerById
    rfl
  · intro records questById playerRecords playerById n hn
    have hsel : selectRecords records (some n) = records.take n := by
      show (if n = 0 then records else records.take n) = records.take n
      rw [if_neg (by omega)]
    simp only [renderGroupedTable]
    rw [hsel]
    rfl

/-! ## Join lemmas (C3, C4) -/

theorem record_of_mem_rowsForRecord {questById : Int → Option Quest}
    {playerById : Int → Option Player} {playerRecords : List PlayerRecord}
    {x : Record} {row : JoinedRow}
    (h : row ∈ rowsForRecord questById playerById playerRecords x) : row.record = x := by
  unfold rowsForRecord at h
  by_cases he : (prsFor playerRecords x).isEmpty
  · rw [if_pos he, List.mem_singleton] at h
    rw [h]
    rfl
  · rw [if_neg he, List.mem_map] at h
    obtain ⟨pr, _, hpr⟩ := h
    rw [← hpr]
    rfl

theorem filter_rowsForRecord (questById : Int → Option Quest)
    (playerById : Int → Option Player) (playerRecords : List PlayerRecord)
    (x r : Record) :
    (rowsForRecord questById playerById playerRecords x).filter
        (fun row => row.record.id == r.id) =
      if x.id == r.id then rowsForRecord questById playerById playerRecords x else [] := by
  by_cases h : x.id = r.id
  · rw [if_pos (beq_iff_eq.mpr h), List.filter_eq_self]
    intro row hrow
    rw [record_of_mem_rowsForRecord hrow]
    exact beq_iff_eq.mpr h
  · rw [if_neg (by simpa using h), List.filter_eq_nil_iff]
    intro row hrow
    rw [record_of_mem_rowsForRecord hrow]
    simpa using h

theorem joinRows_filter (questById : Int → Option Quest)
    (playerById : Int → Option Player) (playerRecords : List PlayerRecord)
    (records : List Record) (r : Record) :
    (joinRows questById playerById playerRecords records).filter
        (fun row => row.record.id == r.id) =
      joinRows questById playerById playerRecords
        (records.filter (fun x => x.id == r.id)) := by
  induction records with
  | nil => rfl
  | cons x xs ih =>
    unfold joinRows at ih ⊢
    rw [List.flatMap_cons, List.filter_append, ih, List.filter_cons,
      filter_rowsForRecord questById playerById playerRecords x r]
    by_cases h : (x.id == r.id) = true
    · rw [if_pos h, if_pos h, List.flatMap_cons]
    · rw [if_neg h, if_neg h, List.nil_append]

/-- C3: a record with no associated player-record (none whose `record_id`
equals its id) contributes exactly one joined row, the placeholder row,
whose participant name is the sentinel `"(none found)"` and whose class and
POV fields are empty. -/
theorem join_zero_participants (questById : Int → Option Quest)
    (playerById : Int → Option Player) (playerRecords : List PlayerRecord)
    (records : List Record) (r : Record)
    (hone : records.filter (fun x => x.id == r.id) = [r])
    (hnone : playerRecords.filter (fun pr => pr.record_id == r.id) = []) :
    (joinRows questById playerById playerRecords records).filter
        (fun row => row.record.id == r.id) =
      [placeholderRow r ((questById r.quest_id).map Quest.name)] ∧
    (placeholderRow r ((questById r.quest_id).map Quest.name)).playerName =
      "(none found)" ∧
    (placeholderRow r ((questById r.quest_id).map Quest.name)).cls = "" ∧
    (placeholderRow r ((questById r.quest_id).map Quest.name)).pov = "" := by
  refine ⟨?_, rfl, rfl, rfl⟩
  rw [joinRows_filter, hone]
  unfold joinRows
  rw [List.flatMap_cons, List.flatMap_nil, List.append_nil]
  unfold rowsForRecord prsFor
  rw [hnone]
  rfl

def qbEmpty : Int → Option Quest := fun _ => none

def pbEmpty : Int → Option Player := fun _ => none

def recA : Record :=
  { id := 1, quest_id := 2, meta := "m", category := "c", pb := false, time := 30, rank := 1 }

theorem join_zero_participants_witness :
    (([recA].filter (fun x => x.id == recA.id) = [recA]) ∧
      (([] : List PlayerRecord).filter (fun pr => pr.record_id == recA.id) = [])) ∧
    ((joinRows qbEmpty pbEmpty [] [recA]).filter (fun row => row.record.id == recA.id) =
        [placeholderRow recA ((qbEmpty recA.quest_id).map Quest.name)] ∧
      (placeholderRow recA ((qbEmpty recA.quest_id).map Quest.name)).playerName =
        "(none found)" ∧
      (placeholderRow recA ((qbEmpty recA.quest_id).map Quest.name)).cls = "" ∧
      (placeholderRow recA ((qbEmpty recA.quest_id).map Quest.name)).pov = "") :=
  ⟨⟨by decide, by decide⟩,
    join_zero_participants qbEmpty pbEmpty [] [recA] recA (by decide) (by decide)⟩

/-- C4: a record with `N ≥ 1` associated player-records contributes exactly
`N` joined rows, one per `(record, participant)` pair, each carrying the
record itself; the participants are exactly the player-records whose
`record_id` equals the record's id, and the rows come out sorted by
participant id ascending. -/
theorem join_with_participants (questById : Int → Option Quest)
    (playerById : Int → Option Player) (playerRecords : List PlayerRecord)
    (r : Record)
    (hne : playerRecords.filter (fun pr => pr.record_id == r.id) ≠ []) :
    rowsForRecord questById playerById playerRecords r =
      (prsFor playerRecords r).map
        (joinedRowOfPR playerById r ((questById r.quest_id).map Quest.name)) ∧
    (rowsForRecord questById playerById playerRecords r).length =
      (playerRecords.filter (fun pr => pr.record_id == r.id)).length ∧
    (∀ row ∈ rowsForRecord questById playerById playerRecords r, row.record = r) ∧
    (rowsForRecord questById playerById playerRecords r).map JoinedRow.pr =
      (prsFor playerRecords r).map some ∧
    (∀ pr : PlayerRecord,
      pr ∈ prsFor playerRecords r ↔ pr ∈ playerRecords ∧ pr.record_id = r.id) ∧
    List.Pairwise (fun a b => prId a ≤ prId b)
      (rowsForRecord questById playerById playerRecords r) := by
  have hprs : ¬(prsFor playerRecords r).isEmpty := by
    unfold prsFor
    rw [List.isEmpty_iff, ← List.length_eq_zero, List.length_insertionSort,
      List.length_eq_zero]
    exact hne
  have hrows : rowsForRecord questById playerById playerRecords r =
      (prsFor playerRecords r).map
        (joinedRowOfPR playerById r ((questById r.quest_id).map Quest.name)) := by
    unfold rowsForRecord
    rw [if_neg hprs]
  refine ⟨hrows, ?_, ?_, ?_, ?_, ?_⟩
  · rw [hrows, List.length_map]
    unfold prsFor
    rw [List.length_insertionSort]
  · intro row hrow
    exact record_of_mem_rowsForRecord hrow
  · rw [hrows, List.map_map]
    rfl
  · intro pr
    unfold prsFor
    rw [List.mem_insertionSort, List.mem_filter, beq_iff_eq]
  · rw [hrows, List.pairwise_map]
    have hsorted : List.Sorted prLE (prsFor playerRecords r) :=
      List.sorted_insertionSort prLE _
    exact hsorted.imp (fun {a b} h => h)

def prB : PlayerRecord := { id := 7, record_id := 1, player_id := 5, pso_class := "HUcast", pov := "" }

theorem join_with_participants_witness :
    ([prB].filter (fun pr => pr.record_id == recA.id) ≠ []) ∧
    (rowsForRecord qbEmpty pbEmpty [prB] recA =
        (prsFor [prB] recA).map
          (joinedRowOfPR pbEmpty recA ((qbEmpty recA.quest_id).map Quest.name)) ∧
      (rowsForRecord qbEmpty pbEmpty [prB] recA).length =
        ([prB].filter (fun pr => pr.record_id == recA.id)).length ∧
      (∀ row ∈ rowsForRecord qbEmpty pbEmpty [prB] recA, row.record = recA) ∧
      (rowsForRecord qbEmpty pbEmpty [prB] recA).map JoinedRow.pr =
        (prsFor [prB] recA).map some ∧
      (∀ pr : PlayerRecord, pr ∈ prsFor [prB] recA ↔ pr ∈ [prB] ∧ pr.record_id = recA.id) ∧
      List.Pairwise (fun a b => prId a ≤ prId b) (rowsForRecord qbEmpty pbEmpty [prB] recA)) :=
  ⟨by decide, join_with_participants qbEmpty pbEmpty [prB] recA (by decide)⟩

/-- C1: `filterRecords` returns exactly the records passing all active
predicates, combined by AND across the five predicate categories; the player
and class predicates are OR-memberships over the record's player-records
(matched by `record_id`, not necessarily the same participant), while meta,
category and PB compare the record's own fields; an empty selection or empty
scalar value constrains nothing, so with everything empty the whole record
list comes back unchanged. -/
theorem filterRecords_spec :
    (∀ (records : List Record) (playerRecords : List PlayerRecord)
        (selP selC : List String) (metaVal countVal pbVal : String) (r : Record),
      r ∈ filterRecords records playerRecords selP selC metaVal countVal pbVal ↔
        r ∈ records ∧
        (selP ≠ [] →
          ∃ pr ∈ playerRecords, pr.record_id = r.id ∧ toString pr.player_id ∈ selP) ∧
        (selC ≠ [] →
          ∃ pr ∈ playerRecords, pr.record_id = r.id ∧ normalize pr.pso_class ∈ selC) ∧
        (metaVal ≠ "" → r.meta = metaVal) ∧
        (countVal ≠ "" → r.category = countVal) ∧
        (pbVal ≠ "" → (if r.pb then "1" else "0") = pbVal)) ∧
    (∀ (records : List Record) (playerRecords : List PlayerRecord),
      filterRecords records playerRecords [] [] "" "" "" = records) := by
  constructor
  · intro records playerRecords selP selC metaVal countVal pbVal r
    unfold filterRecords
    rw [List.mem_filter]
    refine and_congr_right fun _ => ?_
    cases selP with
    | nil =>
      cases selC with
      | nil =>
        simp [or_iff_not_imp_left]
        tauto
      | cons c cs =>
        simp [or_iff_not_imp_left, List.mem_filter]
        aesop
    | cons p ps =>
      cases selC with
      | nil =>
        simp [or_iff_not_imp_left, List.mem_filter]
        aesop
      | cons c cs =>
        simp [or_iff_not_imp_left, List.mem_filter]
        aesop
  · intro records playerRecords
    unfold filterRecords
    simp

/-! ## Typeahead lemmas (C8) -/

theorem collectMatches_cons (sel : List String) (q : String) (it : Item)
    (rest acc : List Item) :
    collectMatches sel q (it :: rest) acc =
      if sel.contains it.key then collectMatches sel q rest acc
      else
        let acc' := if includesSubstr (normalize it.label) q then acc ++ [it] else acc
        if 10 ≤ acc'.length then acc' else collectMatches sel q rest acc' := rfl

theorem collectMatches_eq (selectedSet : List String) (q : String) :
    ∀ (items : List Item) (acc : List Item), acc.length < 10 →
      collectMatches selectedSet q items acc =
        acc ++ (items.filter (fun it =>
          !selectedSet.contains it.key &&
            includesSubstr (normalize it.label) q)).take (10 - acc.length) := by
  intro items
  induction items with
  | nil =>
    intro acc _
    simp [collectMatches]
  | cons it rest ih =>
    intro acc hacc
    rw [collectMatches_cons, List.filter_cons]
    by_cases hsel : selectedSet.contains it.key = true
    · rw [if_pos hsel, if_neg (by rw [hsel]; simp), ih acc hacc]
    · have hselF : selectedSet.contains it.key = false := by simpa using hsel
      rw [if_neg hsel]
      by_cases hmatch : includesSubstr (normalize it.label) q = true
      · have hpred : (!selectedSet.contains it.key &&
            includesSubstr (normalize it.label) q) = true := by
          rw [hselF, hmatch]
          rfl
        rw [if_pos hmatch, if_pos hpred]
        obtain ⟨k, hk⟩ : ∃ k, 10 - acc.length = k + 1 := ⟨9 - acc.length, by omega⟩
        rw [hk, List.take_succ_cons]
        by_cases hten : 10 ≤ (acc ++ [it]).length
        · have hk0 : k = 0 := by
            simp only [List.length_append, List.length_singleton] at hten
            omega
          rw [if_pos hten, hk0, List.take_zero]
        · rw [if_neg hten, ih (acc ++ [it])]
          · have h1 : 10 - (acc ++ [it]).length = k := by
              simp only [List.length_append, List.length_singleton]
              omega
            rw [h1]
            simp
          · simp only [List.length_append, List.length_singleton] at hten ⊢
            omega
      · have hmatchF : includesSubstr (normalize it.label) q = false := by simpa using hmatch
        have hpredF : ¬((!selectedSet.contains it.key &&
            includesSubstr (normalize it.label) q) = true) := by
          rw [hselF, hmatchF]
          simp
        rw [if_neg hmatch, if_neg hpredF, if_neg (by omega), ih acc hacc]

/-- C8: `buildSuggestionList` returns exactly the not-yet-selected items
whose normalized label contains the normalized query as a substring, in the
input (label-sorted) order, capped at the first ten matches; an empty or
whitespace-only query yields no suggestions; the `Alice`/`Alan` fixture with
query `"al"` yields both. -/
theorem buildSuggestionList_spec :
    (∀ (items : List Item) (selectedSet : List String) (query : String),
      (normalize query ≠ "" →
        buildSuggestionList items selectedSet query =
          (items.filter (fun it =>
            !selectedSet.contains it.key &&
              includesSubstr (normalize it.label) (normalize query))).take 10) ∧
      (normalize query = "" → buildSuggestionList items selectedSet query = []) ∧
      (buildSuggestionList items selectedSet query).length ≤ 10 ∧
      (List.Pairwise (fun a b : Item => cmpStr a.label b.label ≠ .gt) items →
        List.Pairwise (fun a b : Item => cmpStr a.label b.label ≠ .gt)
          (buildSuggestionList items selectedSet query))) ∧
    buildSuggestionList
        [{ key := "2", label := "Alan" }, { key := "1", label := "Alice" }] [] "al" =
      [{ key := "2", label := "Alan" }, { key := "1", label := "Alice" }] := by
  constructor
  · intro items selectedSet query
    have heq : normalize query ≠ "" →
        buildSuggestionList items selectedSet query =
          (items.filter (fun it =>
            !selectedSet.contains it.key &&
              includesSubstr (normalize it.label) (normalize query))).take 10 := by
      intro hq
      unfold buildSuggestionList
      rw [if_neg hq, collectMatches_eq selectedSet (normalize query) items [] (by simp)]
      simp
    refine ⟨heq, ?_, ?_, ?_⟩
    · intro hq
      unfold buildSuggestionList
      rw [if_pos hq]
    · by_cases hq : normalize query = ""
      · unfold buildSuggestionList
        rw [if_pos hq]
        simp
      · rw [heq hq]
        exact le_trans (List.length_take_le 10 _) (le_refl 10)
    · intro hsorted
      by_cases hq : normalize query = ""
      · unfold buildSuggestionList
        rw [if_pos hq]
        exact List.Pairwise.nil
      · rw [heq hq]
        exact hsorted.sublist ((List.take_sublist _ _).trans (List.filter_sublist _))
  · decide

/-! ## Render lemmas (C5) -/

/-- Modelled from the spec: the render loop phrased against the previous
row instead of the mutable trackers — a marker exactly when the group key
differs from the previous row's, record-level columns filled exactly when
the group key or the record id differs from the previous row's. -/
def specRenderRest (prev : JoinedRow) : List JoinedRow → List RItem
  | [] => []
  | row :: rest =>
    (if groupKey row.record row.questName ≠ groupKey prev.record prev.questName
      then groupMarkers row else []) ++
    dataRowOf row
        (decide (groupKey row.record row.questName ≠ groupKey prev.record prev.questName ∨
          row.record.id ≠ prev.record.id)) ::
      specRenderRest row rest

/-- Modelled from the spec: the first row always opens a group and fills its
record-level columns; every later row is compared with its predecessor. -/
def specRender : List JoinedRow → List RItem
  | [] => []
  | row :: rest => groupMarkers row ++ dataRowOf row true :: specRenderRest row rest

theorem renderBody_cons (lastGroup : Option String) (lastRecordId : Option Int)
    (row : JoinedRow) (rest : List JoinedRow) :
    renderBody lastGroup lastRecordId (row :: rest) =
      if some (groupKey row.record row.questName) = lastGroup then
        dataRowOf row (decide (some row.record.id ≠ lastRecordId)) ::
          renderBody (some (groupKey row.record row.questName)) (some row.record.id) rest
      else
        groupMarkers row ++
          dataRowOf row true ::
            renderBody (some (groupKey row.record row.questName)) (some row.record.id) rest :=
  rfl

theorem specRenderRest_cons (prev row : JoinedRow) (rest : List JoinedRow) :
    specRenderRest prev (row :: rest) =
      (if groupKey row.record row.questName ≠ groupKey prev.record prev.questName
        then groupMarkers row else []) ++
      dataRowOf row
          (decide (groupKey row.record row.questName ≠ groupKey prev.record prev.questName ∨
            row.record.id ≠ prev.record.id)) ::
        specRenderRest row rest := rfl

theorem renderBody_after :
    ∀ (rows : List JoinedRow) (prev : JoinedRow),
      renderBody (some (groupKey prev.record prev.questName)) (some prev.record.id) rows =
        specRenderRest prev rows := by
  intro rows
  induction rows with
  | nil =>
    intro prev
    rfl
  | cons row rest ih =>
    intro prev
    rw [renderBody_cons, specRenderRest_cons, ih row]
    by_cases hg : groupKey row.record row.questName = groupKey prev.record prev.questName
    · rw [if_pos (by rw [hg]), if_neg (by simp [hg])]
      have hdec : decide (some row.record.id ≠ some prev.record.id) =
          decide (groupKey row.record row.questName ≠ groupKey prev.record prev.questName ∨
            row.record.id ≠ prev.record.id) := by
        rw [decide_eq_decide]
        simp [hg]
      rw [hdec, List.nil_append]
    · rw [if_neg (by simpa using hg), if_pos hg]
      have hdec : (true : Bool) =
          decide (groupKey row.record row.questName ≠ groupKey prev.record prev.questName ∨
            row.record.id ≠ prev.record.id) := by
        rw [eq_comm, decide_eq_true_iff]
        exact Or.inl hg
      rw [← hdec]

/-- C5: the render loop emits the group label/divider marker exactly when a
row's group key differs from the previous row's (the first row always opens
a group), and fills the record-level columns (Quest, Meta, Category, PB,
Time, Rank) exactly on the first row of each distinct record within a group,
emitting empty strings in those columns on every later row of the same
record. -/
theorem renderBody_markers_and_first_rows :
    (∀ rows : List JoinedRow, renderBody none none rows = specRender rows) ∧
    (∀ row : JoinedRow, dataRowOf row false =
      RItem.dataRow "" "" "" "" "" "" row.playerName row.cls (povHTML row.pov)) ∧
    (∀ row : JoinedRow, dataRowOf row true =
      RItem.dataRow (row.questName.getD "(unknown quest)") row.record.meta
        row.record.category (if row.record.pb then "PB" else "No-PB")
        (formatTime (some row.record.time)) (toString row.record.rank)
        row.playerName row.cls (povHTML row.pov)) := by
  refine ⟨?_, fun row => rfl, fun row => rfl⟩
  intro rows
  cases rows with
  | nil => rfl
  | cons row rest =>
    rw [renderBody_cons, if_neg (by simp), renderBody_after rest row]
    rfl

/-! ## Sort lemmas (C2) -/

theorem specRowCompare_self (a : JoinedRow) : specRowCompare a a = .eq := by
  unfold specRowCompare
  rw [cmpStr_self, cmpv_self, cmpv_self, cmpv_self, cmpv_self, cmpStr_self]
  rfl

theorem cmpProps_specRowCompare : CmpProps specRowCompare :=
  (cmpProps_cmpStr.comap (fun row : JoinedRow => groupKey row.record row.questName)).lex
    ((cmpProps_cmpv.comap (fun row : JoinedRow => row.record.rank)).lex
      ((cmpProps_cmpv.comap (fun row : JoinedRow => row.record.time)).lex
        ((cmpProps_cmpv.comap (fun row : JoinedRow => row.record.id)).lex
          ((cmpProps_cmpv.comap prId).lex
            (cmpProps_cmpStr.comap JoinedRow.playerName)))))

instance : IsTrans JoinedRow leSpec :=
  ⟨fun _ _ _ hab hbc => cmpProps_specRowCompare.ne_gt_trans hab hbc⟩

instance : IsTotal JoinedRow leSpec :=
  ⟨fun a b => cmpProps_specRowCompare.total_ne_gt a b⟩

instance : IsRefl JoinedRow leSpec :=
  ⟨fun a => by
    show specRowCompare a a ≠ .gt
    rw [specRowCompare_self]
    simp⟩

theorem cmpRows_coherent : ∀ a b : JoinedRow, RecordCoherent a b →
    cmpRows a b = specRowCompare a b := by
  intro a b hco
  unfold cmpRows specRowCompare
  by_cases hk : groupKey a.record a.questName = groupKey b.record b.questName
  · rw [if_neg (by simpa using hk), hk, cmpStr_self, eq_then]
    by_cases hid : a.record.id = b.record.id
    · obtain ⟨hrec, _⟩ := hco hid
      rw [if_neg (by simpa using hid), hrec, cmpv_self, eq_then, cmpv_self, eq_then,
        cmpv_self, eq_then]
      by_cases hpr : prId a = prId b
      · rw [if_neg (by simpa using hpr), hpr, cmpv_self, eq_then]
      · rw [if_pos hpr, then_of_ne_eq (fun hc => hpr (cmpv_eq_iff.mp hc))]
    · rw [if_pos hid]
      by_cases hr : a.record.rank = b.record.rank
      · rw [if_neg (by simpa using hr), hr, cmpv_self, eq_then]
        by_cases ht : a.record.time = b.record.time
        · rw [if_neg (by simpa using ht), ht, cmpv_self, eq_then,
            then_of_ne_eq (fun hc => hid (cmpv_eq_iff.mp hc))]
        · rw [if_pos ht, then_of_ne_eq (fun hc => ht (cmpv_eq_iff.mp hc))]
      · rw [if_pos hr, then_of_ne_eq (fun hc => hr (cmpv_eq_iff.mp hc))]
  · rw [if_pos hk, then_of_ne_eq (fun hc => hk (cmpStr_eq_iff.mp hc))]

theorem orderedInsert_congr {α : Type} (le₁ le₂ : α → α → Prop)
    [DecidableRel le₁] [DecidableRel le₂] (a : α) :
    ∀ (l : List α), (∀ b ∈ l, le₁ a b ↔ le₂ a b) →
      List.orderedInsert le₁ a l = List.orderedInsert le₂ a l := by
  intro l
  induction l with
  | nil =>
    intro _
    rfl
  | cons b t ih =>
    intro h
    rw [List.orderedInsert, List.orderedInsert]
    by_cases hb : le₁ a b
    · rw [if_pos hb, if_pos ((h b (List.mem_cons_self b t)).mp hb)]
    · rw [if_neg hb, if_neg (fun hc => hb ((h b (List.mem_cons_self b t)).mpr hc)),
        ih (fun x hx => h x (List.mem_cons_of_mem b hx))]

theorem insertionSort_congr {α : Type} (le₁ le₂ : α → α → Prop)
    [DecidableRel le₁] [DecidableRel le₂] :
    ∀ (l : List α), (∀ a ∈ l, ∀ b ∈ l, le₁ a b ↔ le₂ a b) →
      List.insertionSort le₁ l = List.insertionSort le₂ l := by
  intro l
  induction l with
  | nil =>
    intro _
    rfl
  | cons a t ih =>
    intro h
    rw [List.insertionSort, List.insertionSort,
      ih (fun x hx y hy => h x (List.mem_cons_of_mem a hx) y (List.mem_cons_of_mem a hy))]
    exact orderedInsert_congr le₁ le₂ a _ (fun b hb =>
      h a (List.mem_cons_self a t) b
        (List.mem_cons_of_mem a ((List.mem_insertionSort (r := le₂)).mp hb)))

theorem sortRows_eq_spec (rows : List JoinedRow)
    (hco : ∀ a ∈ rows, ∀ b ∈ rows, RecordCoherent a b) :
    sortRows rows = List.insertionSort leSpec rows := by
  unfold sortRows
  exact insertionSort_congr leRows leSpec rows (fun a ha b hb => by
    show cmpRows a b ≠ .gt ↔ specRowCompare a b ≠ .gt
    rw [cmpRows_coherent a b (hco a ha b hb)])

theorem sorted_record_contiguous {l : List JoinedRow}
    (hs : List.Sorted leSpec l)
    (hco : ∀ a ∈ l, ∀ b ∈ l, RecordCoherent a b)
    (i j k : Fin l.length) (hij : i ≤ j) (hjk : j ≤ k)
    (hik : (l.get i).record.id = (l.get k).record.id) :
    (l.get j).record.id = (l.get i).record.id := by
  set x := l.get i with hxdef
  set z := l.get j with hzdef
  set y := l.get k with hydef
  have hxz : leSpec x z := hs.rel_get_of_le hij
  have hzy : leSpec z y := hs.rel_get_of_le hjk
  obtain ⟨hrec, hqn⟩ :=
    hco x (by rw [hxdef]; exact l.get_mem i.1 i.2) y (by rw [hydef]; exact l.get_mem k.1 k.2) hik
  have hxz' : (cmpStr (groupKey x.record x.questName) (groupKey z.record z.questName)).then
      ((cmpv x.record.rank z.record.rank).then
        ((cmpv x.record.time z.record.time).then
          ((cmpv x.record.id z.record.id).then
            ((cmpv (prId x) (prId z)).then (cmpStr x.playerName z.playerName))))) ≠ .gt := hxz
  have hzy' : (cmpStr (groupKey z.record z.questName) (groupKey y.record y.questName)).then
      ((cmpv z.record.rank y.record.rank).then
        ((cmpv z.record.time y.record.time).then
          ((cmpv z.record.id y.record.id).then
            ((cmpv (prId z) (prId y)).then (cmpStr z.playerName y.playerName))))) ≠ .gt := hzy
  rw [← hrec, ← hqn] at hzy'
  -- group key squeeze
  have hg1 : cmpStr (groupKey x.record x.questName) (groupKey z.record z.questName) ≠ .gt :=
    then_ne_gt_left hxz'
  have hg2 : cmpStr (groupKey z.record z.questName) (groupKey x.record x.questName) ≠ .gt :=
    then_ne_gt_left hzy'
  have hgeq : cmpStr (groupKey x.record x.questName) (groupKey z.record z.questName) = .eq :=
    ordering_eq_of_both_ne_gt hg1 (by rwa [← cmpStr_swap])
  have hgxz : groupKey x.record x.questName = groupKey z.record z.questName :=
    cmpStr_eq_iff.mp hgeq
  rw [hgxz, cmpStr_self, eq_then] at hxz'
  rw [← hgxz, cmpStr_self, eq_then] at hzy'
  -- rank squeeze
  have hr1 : cmpv x.record.rank z.record.rank ≠ .gt := then_ne_gt_left hxz'
  have hr2 : cmpv z.record.rank x.record.rank ≠ .gt := then_ne_gt_left hzy'
  have hreq : cmpv x.record.rank z.record.rank = .eq :=
    ordering_eq_of_both_ne_gt hr1 (by rwa [← cmpv_swap])
  have hrxz : x.record.rank = z.record.rank := cmpv_eq_iff.mp hreq
  rw [hrxz, cmpv_self, eq_then] at hxz'
  rw [← hrxz, cmpv_self, eq_then] at hzy'
  -- time squeeze
  have ht1 : cmpv x.record.time z.record.time ≠ .gt := then_ne_gt_left hxz'
  have ht2 : cmpv z.record.time x.record.time ≠ .gt := then_ne_gt_left hzy'
  have hteq : cmpv x.record.time z.record.time = .eq :=
    ordering_eq_of_both_ne_gt ht1 (by rwa [← cmpv_swap])
  have htxz : x.record.time = z.record.time := cmpv_eq_iff.mp hteq
  rw [htxz, cmpv_self, eq_then] at hxz'
  rw [← htxz, cmpv_self, eq_then] at hzy'
  -- record id squeeze
  have hi1 : cmpv x.record.id z.record.id ≠ .gt := then_ne_gt_left hxz'
  have hi2 : cmpv z.record.id x.record.id ≠ .gt := then_ne_gt_left hzy'
  have hieq : cmpv x.record.id z.record.id = .eq :=
    ordering_eq_of_both_ne_gt hi1 (by rwa [← cmpv_swap])
  exact (cmpv_eq_iff.mp hieq).symm

/-- C2: the comparator driving the sort before rendering realises, on
coherent joined rows (rows whose shared record id forces a shared record and
quest name — the documented unique-id invariant), exactly the claimed
lexicographic total order: group key first, then rank ascending, time
ascending, record id ascending (so colliding rank/time pairs are decided
deterministically by record id, and rows of one record stay contiguous),
then participant id ascending, then participant name; consequently the
sorted output is sorted by that order and rows with equal record ids are
contiguous in it. -/
theorem sort_realises_total_order :
    (∀ a b : JoinedRow, RecordCoherent a b → cmpRows a b = specRowCompare a b) ∧
    (∀ rows : List JoinedRow,
      (∀ a ∈ rows, ∀ b ∈ rows, RecordCoherent a b) →
      List.Sorted leSpec (sortRows rows) ∧
      (∀ i j k : Fin (sortRows rows).length, i ≤ j → j ≤ k →
        ((sortRows rows).get i).record.id = ((sortRows rows).get k).record.id →
        ((sortRows rows).get j).record.id = ((sortRows rows).get i).record.id)) := by
  constructor
  · exact cmpRows_coherent
  · intro rows hco
    have hsorted : List.Sorted leSpec (sortRows rows) := by
      rw [sortRows_eq_spec rows hco]
      exact List.sorted_insertionSort leSpec rows
    have hcoL : ∀ a ∈ sortRows rows, ∀ b ∈ sortRows rows, RecordCoherent a b := by
      intro a ha b hb
      unfold sortRows at ha hb
      rw [List.mem_insertionSort] at ha hb
      exact hco a ha b hb
    exact ⟨hsorted, fun i j k hij hjk hik =>
      sorted_record_contiguous hsorted hcoL i j k hij hjk hik⟩

end PsoTa
